import Mathlib

/-!
Shallow embedding of the transposition table of ryicoh/apery_rust
(src/tt.rs): the packed entry codec (TTEntry), the 3-entry cluster,
and the table with its probe/save/resize/clear/new_search operations.

Machine integers are modelled as Nat (u8/u16/u64/usize) and Int (i16/i32),
with explicit `% 2^w` / sign-extension at the points where the Rust code
casts.  Rust's truncating i32 division is Int.tdiv; `x as u8` on an i32 is
taking the low byte of the two's complement representation, i.e.
`(x % 256).toNat` with Euclidean remainder.
-/

/-- Modelled from the spec: the ply unit of `Depth` (defined in types.rs,
which is outside src/).  The debug assertion in TTEntry::save requires every
saved depth to be an exact multiple of this unit and the repository test
saves depths 1, 2, 3 and 9, forcing the unit to be 1. -/
def Depth.ONE_PLY : Int := 1

/-- Modelled from the spec: the fixed negative depth offset of `Depth`
(defined in types.rs, outside src/).  The spec only requires a fixed
negative value; every claim below is stated relative to this constant. -/
def Depth.OFFSET : Int := -7

/-- Modelled from the spec: the code of the EXACT bound (types.rs, outside
src/).  Bound occupies bits 0-1 of the packed genbound8 field and EXACT is
the strongest of the three bound kinds, conventionally LOWER ||| UPPER = 3. -/
def Bound.EXACT : Nat := 3

/-- High 16 bits of a 64-bit key: `(key.0 >> 48) as u16`. -/
def hi16 (key : Nat) : Nat := (key >>> 48) % 65536

/-- Truncating cast of an i32 value to i16 (`v as i16`), sign-extended back
to the mathematical integers. -/
def toI16 (v : Int) : Int := (v + 32768) % 65536 - 32768

/-- Truncating cast of an i32 value to u8 (`v as u8`): the low byte of the
two's complement representation. -/
def toU8 (v : Int) : Nat := (v % 256).toNat

/-- The quantized depth `(depth.0 - Depth::OFFSET.0) / Depth::ONE_PLY.0`
computed by TTEntry::save (truncating i32 division). -/
def depthQuant (depth : Int) : Int := Int.tdiv (depth - Depth.OFFSET) Depth.ONE_PLY

/-- One packed transposition-table entry (10 bytes in Rust).  Fields carry
their Rust names; key16/mv16 are u16, value16/eval16 are i16, genbound8 and
depth8 are u8. -/
structure TTEntry where
  key16 : Nat
  mv16 : Nat
  value16 : Int
  eval16 : Int
  genbound8 : Nat
  depth8 : Nat
deriving DecidableEq

/-- The all-zero entry: the state of every slot after clear/resize. -/
def zeroEntry : TTEntry := ⟨0, 0, 0, 0, 0, 0⟩

/-- `TTEntry::value`: sign-extend the stored i16 to the score domain. -/
def TTEntry.value (e : TTEntry) : Int := e.value16

/-- `TTEntry::eval`: sign-extend the stored i16 to the score domain. -/
def TTEntry.eval (e : TTEntry) : Int := e.eval16

/-- `TTEntry::depth`: `Depth(i32::from(depth8) * ONE_PLY.0) + OFFSET`. -/
def TTEntry.depth (e : TTEntry) : Int := (e.depth8 : Int) * Depth.ONE_PLY + Depth.OFFSET

/-- `TTEntry::is_pv`: `(genbound8 & 0x4) != 0`. -/
def TTEntry.is_pv (e : TTEntry) : Bool := e.genbound8 &&& 4 != 0

/-- `TTEntry::bound`: `Bound(i32::from(genbound8) & 0x3)`. -/
def TTEntry.bound (e : TTEntry) : Nat := e.genbound8 &&& 3

/-- `TTEntry::generation`: `genbound8 & 0xf8`. -/
def TTEntry.generation (e : TTEntry) : Nat := e.genbound8 &&& 248

/-- The replacement gate of TTEntry::save: the key/value/eval/genbound/depth
fields are overwritten exactly when this condition holds. -/
def saveGate (e : TTEntry) (key : Nat) (bound : Nat) (depth : Int) : Prop :=
  hi16 key ≠ e.key16 ∨ depthQuant depth > (e.depth8 : Int) - 4 ∨ bound = Bound.EXACT

instance (e : TTEntry) (key : Nat) (bound : Nat) (depth : Int) :
    Decidable (saveGate e key bound depth) :=
  inferInstanceAs (Decidable (hi16 key ≠ e.key16 ∨
    depthQuant depth > (e.depth8 : Int) - 4 ∨ bound = Bound.EXACT))

/-- `TTEntry::save`.  First the move-field update (a supplied move is always
stored, truncated to u16; an absent move clears mv16 only when the incoming
key differs from the stored one), then the gated overwrite of the remaining
fields. -/
def TTEntry.save (e : TTEntry) (key : Nat) (value : Int) (pv : Bool) (bound : Nat)
    (depth : Int) (mv : Option Nat) (eval : Int) (generation : Nat) : TTEntry :=
  let e1 :=
    match mv with
    | some m => { e with mv16 := m % 65536 }
    | none => if hi16 key ≠ e.key16 then { e with mv16 := 0 } else e
  if saveGate e1 key bound depth then
    { e1 with
      key16 := hi16 key
      value16 := toI16 value
      eval16 := toI16 eval
      genbound8 := (generation ||| ((if pv then 1 else 0) <<< 2) ||| bound) % 256
      depth8 := toU8 (depthQuant depth) }
  else e1


/-- The record written by the gated branch of TTEntry::save: the incoming
key's high bits and the encodings of the incoming value, eval, generation,
pv flag, bound and quantized depth (the move field is whatever the
move-update step left in the slot). -/
def encEntry (key : Nat) (value eval : Int) (pv : Bool) (bound : Nat) (depth : Int)
    (gen mv16 : Nat) : TTEntry :=
  ⟨hi16 key, mv16, toI16 value, toI16 eval,
    (gen ||| ((if pv then 1 else 0) <<< 2) ||| bound) % 256, toU8 (depthQuant depth)⟩

/-- Modelled from the spec: the slice of the Position interface consumed by
TTEntry::mv (position.rs is outside src/): the piece-on-square oracle and the
pseudo-legality oracle, both opaque here. -/
structure Position where
  pieceOn : Nat → Nat
  pseudoLegal : Nat → Bool

/-- Modelled from the spec: the move-encoding operations consumed by
TTEntry::mv (movetypes.rs is outside src/): the normal-move and drop
classifiers, the origin square, and the bit position of the moved-piece
field that the compact 16-bit stored encoding omits. -/
structure MoveOps where
  isNormal : Nat → Bool
  isDrop : Nat → Bool
  fromSq : Nat → Nat
  movedPieceShift : Nat

/-- Modelled from the spec: reconstruction of the full move from the compact
stored 16-bit encoding, as performed inside TTEntry::mv — a non-normal move
or a drop is returned unchanged, otherwise the moved piece's kind read off
the current board at the origin square is injected above the stored bits. -/
def reconstructMove (ops : MoveOps) (pos : Position) (mv16 : Nat) : Nat :=
  if !(ops.isNormal mv16) || ops.isDrop mv16 then mv16
  else mv16 ||| (pos.pieceOn (ops.fromSq mv16) <<< ops.movedPieceShift)

/-- `TTEntry::mv`.  The construction `NonZeroU32::new_unchecked(mv16)` has
the safety precondition that the stored move field is non-zero; the
precondition is made explicit as the proof argument.  The reconstructed move
is returned only when it passes the position's pseudo-legality check. -/
def TTEntry.mv (e : TTEntry) (ops : MoveOps) (pos : Position)
    (_h : e.mv16 ≠ 0) : Option Nat :=
  let m := reconstructMove ops pos e.mv16
  if pos.pseudoLegal m then some m else none

/-- One cluster: exactly CLUSTER_SIZE = 3 entries (the two trailing pad
bytes carry no information and are not modelled). -/
structure TTCluster where
  e0 : TTEntry
  e1 : TTEntry
  e2 : TTEntry
deriving DecidableEq

/-- The all-zero cluster. -/
def zeroCluster : TTCluster := ⟨zeroEntry, zeroEntry, zeroEntry⟩

/-- Entry of a cluster at a scan position. -/
def TTCluster.get (c : TTCluster) (i : Fin 3) : TTEntry :=
  match i with
  | ⟨0, _⟩ => c.e0
  | ⟨1, _⟩ => c.e1
  | ⟨2, _⟩ => c.e2

/-- Replace the entry of a cluster at a scan position. -/
def TTCluster.set (c : TTCluster) (i : Fin 3) (e : TTEntry) : TTCluster :=
  match i with
  | ⟨0, _⟩ => { c with e0 := e }
  | ⟨1, _⟩ => { c with e1 := e }
  | ⟨2, _⟩ => { c with e2 := e }

/-- The generation refresh performed by probe on the selected entry:
`genbound8 = generation8 | (genbound8 & 0x7)`. -/
def refreshGen (gen : Nat) (e : TTEntry) : TTEntry :=
  { e with genbound8 := gen ||| (e.genbound8 &&& 7) }

/-- The age penalty used by the replacement policy:
`(263 + i32::from(generation8) - i32::from(genbound8)) & 0xf8`. -/
def agePenalty (gen gb : Nat) : Int := Int.land (263 + (gen : Int) - (gb : Int)) 248

/-- The replacement score `i32::from(depth8) - agePenalty` minimized by
probe when no entry of the cluster matches. -/
def replaceScore (gen : Nat) (e : TTEntry) : Int := (e.depth8 : Int) - agePenalty gen e.genbound8

/-- An entry qualifies for selection during the scan phase of probe when it
is empty (key16 = 0) or stores the probed key's high 16 bits. -/
def qualifies (k16 : Nat) (e : TTEntry) : Prop := e.key16 = 0 ∨ e.key16 = k16

instance (k16 : Nat) (e : TTEntry) : Decidable (qualifies k16 e) :=
  inferInstanceAs (Decidable (e.key16 = 0 ∨ e.key16 = k16))

/-- The per-cluster part of TranspositionTable::probe: scan the three
entries in index order, selecting (and generation-refreshing) the first
empty or matching one; if none qualifies, select the first entry minimizing
the replacement score, exactly as Rust's `Iterator::min_by` does (ties keep
the earlier element).  Returns the updated cluster, the selected index and
the found flag. -/
def TTCluster.probe (c : TTCluster) (gen k16 : Nat) : TTCluster × Fin 3 × Bool :=
  if c.e0.key16 = 0 ∨ c.e0.key16 = k16 then
    ({ c with e0 := refreshGen gen c.e0 }, 0, c.e0.key16 != 0)
  else if c.e1.key16 = 0 ∨ c.e1.key16 = k16 then
    ({ c with e1 := refreshGen gen c.e1 }, 1, c.e1.key16 != 0)
  else if c.e2.key16 = 0 ∨ c.e2.key16 = k16 then
    ({ c with e2 := refreshGen gen c.e2 }, 2, c.e2.key16 != 0)
  else
    let i1 : Fin 3 := if replaceScore gen c.e1 < replaceScore gen c.e0 then 1 else 0
    let i2 : Fin 3 := if replaceScore gen c.e2 < replaceScore gen (c.get i1) then 2 else i1
    (c, i2, false)

/-- The table: a vector of clusters and the table-wide generation byte. -/
structure TranspositionTable where
  table : List TTCluster
  generation8 : Nat
deriving DecidableEq

/-- `TranspositionTable::new`: empty cluster vector, generation 0. -/
def TranspositionTable.new : TranspositionTable := ⟨[], 0⟩

/-- The mask `self.table.len() - 1` computed with usize semantics: on
length 0 the subtraction wraps around to 2^64 - 1. -/
def usizeMask (len : Nat) : Nat := (len + (2 ^ 64 - 1)) % 2 ^ 64

/-- `TranspositionTable::cluster_index`: `key.0 as usize & (len - 1)`. -/
def TranspositionTable.cluster_index (tt : TranspositionTable) (key : Nat) : Nat :=
  (key % 2 ^ 64) &&& usizeMask tt.table.length

/-- The cluster addressed by a key (the unchecked indexing of
get_mut_cluster is modelled as a defaulted lookup; the two agree exactly
when the index is in range, which claim C10 isolates as the safety
precondition). -/
def TranspositionTable.clusterAt (tt : TranspositionTable) (key : Nat) : TTCluster :=
  tt.table.getD (tt.cluster_index key) zeroCluster

/-- Result of TranspositionTable::probe: the table after the in-place
generation refresh, the cluster index and entry index of the returned
mutable slot, and the found flag. -/
structure ProbeResult where
  tt : TranspositionTable
  cIdx : Nat
  eIdx : Fin 3
  found : Bool
deriving DecidableEq

/-- `TranspositionTable::probe`. -/
def TranspositionTable.probe (tt : TranspositionTable) (key : Nat) : ProbeResult :=
  let idx := tt.cluster_index key
  let c := tt.table.getD idx zeroCluster
  let r := c.probe tt.generation8 (hi16 key)
  ⟨{ tt with table := tt.table.set idx r.1 }, idx, r.2.1, r.2.2⟩

/-- A call of TTEntry::save through the mutable slot handed out by probe. -/
def TranspositionTable.saveAt (tt : TranspositionTable) (cIdx : Nat) (eIdx : Fin 3)
    (key : Nat) (value : Int) (pv : Bool) (bound : Nat) (depth : Int)
    (mv : Option Nat) (eval : Int) (generation : Nat) : TranspositionTable :=
  let c := tt.table.getD cIdx zeroCluster
  let c2 := c.set eIdx ((c.get eIdx).save key value pv bound depth mv eval generation)
  { tt with table := tt.table.set cIdx c2 }

/-- `TranspositionTable::new_search`: `generation8.wrapping_add(8)`. -/
def TranspositionTable.new_search (tt : TranspositionTable) : TranspositionTable :=
  { tt with generation8 := (tt.generation8 + 8) % 256 }

/-- `TranspositionTable::clear`: every cluster is assigned the all-zero
value (the rayon parallel iteration writes each cluster independently, so
its sequential effect is this map); the generation byte is untouched. -/
def TranspositionTable.clear (tt : TranspositionTable) : TranspositionTable :=
  { tt with table := tt.table.map (fun _ => zeroCluster) }

/-- Fuel-driven core of usize::next_power_of_two: repeatedly double an
accumulator (starting at 1) until it reaches the argument. -/
def next_power_of_two_go (n : Nat) : Nat → Nat → Nat
  | 0, p => p
  | f + 1, p => if n ≤ p then p else next_power_of_two_go n f (2 * p)

/-- Rust's `usize::next_power_of_two`: the smallest power of two that is
greater than or equal to the argument (1 for argument 0); n units of fuel
always suffice since 2^n ≥ n. -/
def next_power_of_two (n : Nat) : Nat := next_power_of_two_go n n 1

/-- `TranspositionTable::resize`: normalize the requested megabyte count to
`(mega_byte_size + 1).next_power_of_two() >> 1`, allocate
`normalizedBytes / size_of::<TTCluster>()` clusters (the cluster size is 32
bytes per the repr(align(32)) layout asserted by the repository's
test_size), and zero-fill them.  The scheduler barrier taken before the
reallocation is a concurrency-only effect with no bearing on the resulting
state and is not modelled. -/
def TranspositionTable.resize (tt : TranspositionTable) (mega_byte_size : Nat) :
    TranspositionTable :=
  let normalized := next_power_of_two (mega_byte_size + 1) >>> 1
  let cluster_count := normalized * 1024 * 1024 / 32
  { tt with table := List.replicate cluster_count zeroCluster }

/-- A one-cluster, all-zero table with generation 0: the smallest well-formed
table state, used as the concrete input of several witnesses. -/
def tt1c : TranspositionTable := ⟨[zeroCluster], 0⟩

/-- A key whose high 16 bits are the given value. -/
def keyHi (h : Nat) : Nat := h <<< 48

/-- An entry as produced by saving the given key at the given depth with an
EXACT bound under the given generation into an empty slot. -/
def entAt (key : Nat) (d : Int) (gen : Nat) : TTEntry :=
  zeroEntry.save key 0 false Bound.EXACT d none 0 gen

/-- Scenario A cluster: three distinct keys at depths 2, 1 and 9, all of
generation 0. -/
def clusterA : TTCluster :=
  ⟨entAt (keyHi 0xffff) 2 0, entAt (keyHi 0x7fff) 1 0, entAt (keyHi 0x3fff) 9 0⟩

/-- Scenario A table, current generation 0. -/
def ttA : TranspositionTable := ⟨[clusterA], 0⟩

/-- Scenario B cluster: depth 2 of the old generation 0, depth 1 of the new
generation 8, depth 9 of the old generation 0. -/
def clusterB : TTCluster :=
  ⟨entAt (keyHi 0xffff) 2 0, entAt (keyHi 0x7fff) 1 8, entAt (keyHi 0x3fff) 9 0⟩

/-- Scenario B table, current generation 8. -/
def ttB : TranspositionTable := ⟨[clusterB], 8⟩

/-- Concrete resident entry used by the C4 counterexample: a non-empty slot
(key16 = 5) holding a deep result (depth8 = 100, stored depth 93). -/
def entC4 : TTEntry := ⟨5, 0, 0, 0, 0, 100⟩

/-! ### Helper lemmas -/

theorem lor_ne_zero_left {m n : Nat} (h : m ≠ 0) : m ||| n ≠ 0 := by
  intro h0
  apply h
  apply Nat.eq_of_testBit_eq
  intro i
  have h1 := congrArg (fun x => Nat.testBit x i) h0
  simp only [Nat.testBit_lor, Nat.zero_testBit, Bool.or_eq_false_iff] at h1
  simp [h1.1]

theorem cluster_index_lt (tt : TranspositionTable) (key : Nat)
    (h : 1 ≤ tt.table.length) : tt.cluster_index key < tt.table.length := by
  unfold TranspositionTable.cluster_index usizeMask
  have h1 : (tt.table.length + (2 ^ 64 - 1)) % 2 ^ 64 ≤ tt.table.length - 1 := by omega
  have h2 := @Nat.and_le_right (key % 2 ^ 64) ((tt.table.length + (2 ^ 64 - 1)) % 2 ^ 64)
  omega

/-! ### C1: the overwrite gate of TTEntry::save -/

/-- C1: in every call to TTEntry::save the key16/value16/eval16/genbound8/depth8
fields are overwritten (with the encodings of the incoming arguments) if and
only if the gate holds: (a) the stored key16 differs from the high 16 bits of
the incoming key, or (b) the incoming depth quantized to ply units after
subtracting the offset is not shallower than the stored depth8 by more than 4
ply units (quantized depth > depth8 - 4), or (c) the incoming bound is EXACT;
when none of (a)-(c) holds the call leaves all five fields unchanged. -/
theorem save_overwrite_iff_gate (e : TTEntry) (key : Nat) (value : Int) (pv : Bool)
    (bound : Nat) (depth : Int) (mv : Option Nat) (eval : Int) (gen : Nat) :
    (saveGate e key bound depth →
      ((e.save key value pv bound depth mv eval gen).key16 = hi16 key ∧
       (e.save key value pv bound depth mv eval gen).value16 = toI16 value ∧
       (e.save key value pv bound depth mv eval gen).eval16 = toI16 eval ∧
       (e.save key value pv bound depth mv eval gen).genbound8 =
         (gen ||| ((if pv then 1 else 0) <<< 2) ||| bound) % 256 ∧
       (e.save key value pv bound depth mv eval gen).depth8 = toU8 (depthQuant depth))) ∧
    (¬ saveGate e key bound depth →
      ((e.save key value pv bound depth mv eval gen).key16 = e.key16 ∧
       (e.save key value pv bound depth mv eval gen).value16 = e.value16 ∧
       (e.save key value pv bound depth mv eval gen).eval16 = e.eval16 ∧
       (e.save key value pv bound depth mv eval gen).genbound8 = e.genbound8 ∧
       (e.save key value pv bound depth mv eval gen).depth8 = e.depth8)) := by
  refine ⟨fun hg => ?_, fun hg => ?_⟩ <;>
    cases mv <;>
      simp only [TTEntry.save] <;>
      split_ifs <;>
      simp_all [saveGate] <;>
      omega

/-- Witness for C1 at a concrete input: saving into the zero entry under a
fresh key (gate holds via (a)) stores the truncated value. -/
theorem save_overwrite_iff_gate_witness :
    (zeroEntry.save (keyHi 1) 5 false 1 3 none 6 0).value16 = toI16 5 :=
  ((save_overwrite_iff_gate zeroEntry (keyHi 1) 5 false 1 3 none 6 0).1
    (by left; decide)).2.1

/-! ### C4: the frame effect of a rejected save -/

/-- C4 counterexample: with a key whose high 16 bits DIFFER from the stored
key16 (here 6 vs 5), a non-EXACT bound, and a depth more than 4 ply units
shallower than the resident stored depth (83 vs 93), save does NOT leave the
resident fields unchanged — the differing key alone opens the gate and
value16 is overwritten. -/
theorem save_differing_key_cex :
    hi16 (keyHi 6) ≠ entC4.key16 ∧ (1 : Nat) ≠ Bound.EXACT ∧
    entC4.depth - 83 > 4 * Depth.ONE_PLY ∧
    (entC4.save (keyHi 6) 7 false 1 83 none 0 0).value16 ≠ entC4.value16 := by
  decide

/-- C4 (amended): for every resident entry, calling save with a key whose
high 16 bits MATCH the stored key16, a bound other than EXACT, and a depth
more than 4 ply units shallower than the resident entry's stored depth
leaves the resident value16, depth8 and bound fields unchanged. -/
theorem save_no_overwrite_when_shallow (e : TTEntry) (key : Nat) (value : Int)
    (pv : Bool) (bound : Nat) (depth : Int) (mv : Option Nat) (eval : Int) (gen : Nat)
    (hkey : hi16 key = e.key16)
    (hbound : bound ≠ Bound.EXACT)
    (hshallow : e.depth - depth > 4 * Depth.ONE_PLY) :
    (e.save key value pv bound depth mv eval gen).value16 = e.value16 ∧
    (e.save key value pv bound depth mv eval gen).depth8 = e.depth8 ∧
    (e.save key value pv bound depth mv eval gen).bound = e.bound := by
  have hg : ¬ saveGate e key bound depth := by
    simp only [saveGate, TTEntry.depth, Depth.ONE_PLY, Depth.OFFSET, depthQuant,
      Int.tdiv_one] at *
    push_neg
    exact ⟨hkey, by omega, hbound⟩
  cases mv <;>
    simp only [TTEntry.save] <;>
    split_ifs <;>
    simp_all [saveGate, TTEntry.bound] <;>
    omega

/-- Witness for C4 (amended): a same-key, non-exact, much-shallower save on a
concrete deep resident entry leaves value16 unchanged. -/
theorem save_no_overwrite_when_shallow_witness :
    (entC4.save (keyHi 5) 7 false 1 83 none 0 0).value16 = entC4.value16 :=
  (save_no_overwrite_when_shallow entC4 (keyHi 5) 7 false 1 83 none 0 0
    (by decide) (by decide) (by decide)).1

/-! ### C5: the move-field update of TTEntry::save -/

/-- C5: in every call to TTEntry::save, a supplied move is always stored into
mv16 (truncated to 16 bits); an absent move clears mv16 to 0 exactly when the
stored key16 differs from the high 16 bits of the incoming key and leaves
mv16 unchanged when they match — independently of the gate governing the
other fields. -/
theorem save_move_field (e : TTEntry) (key : Nat) (value : Int) (pv : Bool)
    (bound : Nat) (depth : Int) (eval : Int) (gen : Nat) :
    (∀ m, (e.save key value pv bound depth (some m) eval gen).mv16 = m % 65536) ∧
    (hi16 key ≠ e.key16 → (e.save key value pv bound depth none eval gen).mv16 = 0) ∧
    (hi16 key = e.key16 → (e.save key value pv bound depth none eval gen).mv16 = e.mv16) := by
  refine ⟨fun m => ?_, fun hk => ?_, fun hk => ?_⟩ <;>
    simp only [TTEntry.save] <;>
    split_ifs <;>
    simp_all

/-- Witness for C5 at a concrete input: a save with a differing key and no
move clears the move field. -/
theorem save_move_field_witness :
    (entC4.save (keyHi 6) 7 false 1 83 none 0 0).mv16 = 0 :=
  (save_move_field entC4 (keyHi 6) 7 false 1 83 0 0).2.1 (by decide)

/-! ### C9: the non-zero precondition of TTEntry::mv -/

/-- C9: TTEntry::mv unconditionally builds a NonZeroU32 from the stored
16-bit move, so it carries the unstated safety precondition mv16 ≠ 0 —
violated by the all-zero (empty) entry, whose mv16 is 0.  Under the
precondition the construction is total (the reconstructed move is non-zero,
so the second NonZeroU32 construction is also valid) and the function
returns some move exactly when the reconstruction passes the position's
pseudo-legality check, and none otherwise. -/
theorem mv_nonzero_precondition (ops : MoveOps) (pos : Position) (e : TTEntry)
    (h : e.mv16 ≠ 0) :
    reconstructMove ops pos e.mv16 ≠ 0 ∧
    e.mv ops pos h =
      (if pos.pseudoLegal (reconstructMove ops pos e.mv16) then
        some (reconstructMove ops pos e.mv16) else none) ∧
    (∀ m, e.mv ops pos h = some m →
      pos.pseudoLegal m = true ∧ m = reconstructMove ops pos e.mv16) ∧
    zeroEntry.mv16 = 0 := by
  refine ⟨?_, rfl, fun m hm => ?_, rfl⟩
  · unfold reconstructMove
    split
    · exact h
    · exact lor_ne_zero_left h
  · simp only [TTEntry.mv] at hm
    split at hm
    · cases hm
      exact ⟨by assumption, rfl⟩
    · cases hm

/-- Witness for C9 at a concrete input: an entry with stored move 5 under an
always-legal oracle yields a non-zero reconstructed move. -/
theorem mv_nonzero_precondition_witness :
    reconstructMove ⟨fun _ => true, fun _ => false, fun _ => 3, 16⟩
      ⟨fun _ => 3, fun _ => true⟩ (TTEntry.mk 0 5 0 0 0 0).mv16 ≠ 0 :=
  (mv_nonzero_precondition ⟨fun _ => true, fun _ => false, fun _ => 3, 16⟩
    ⟨fun _ => 3, fun _ => true⟩ (TTEntry.mk 0 5 0 0 0 0) (by decide)).1


/-! ### Cluster probe helpers -/

theorem get_zero (c : TTCluster) : c.get 0 = c.e0 := rfl

theorem get_one (c : TTCluster) : c.get 1 = c.e1 := rfl

theorem get_two (c : TTCluster) : c.get 2 = c.e2 := rfl

theorem get_set_self (c : TTCluster) (i : Fin 3) (e : TTEntry) :
    (c.set i e).get i = e := by
  fin_cases i <;> rfl

theorem get_set_ne (c : TTCluster) (i j : Fin 3) (e : TTEntry) (h : i ≠ j) :
    (c.set j e).get i = c.get i := by
  fin_cases i <;> fin_cases j <;> first | rfl | exact absurd rfl h

theorem saveGate_refresh (g : Nat) (e : TTEntry) (key : Nat) (bound : Nat) (depth : Int) :
    saveGate (refreshGen g e) key bound depth ↔ saveGate e key bound depth :=
  Iff.rfl

theorem genbits_refresh (g x : Nat) (hg : g < 256) (hg8 : g % 8 = 0) :
    (g ||| (x &&& 7)) &&& 7 = x &&& 7 ∧ (g ||| (x &&& 7)) >>> 3 = g >>> 3 := by
  have hy : x &&& 7 < 8 := by
    have := @Nat.and_le_right x 7; omega
  have hdec : ∀ t, t < 32 → ∀ y, y < 8 →
      ((8 * t ||| y) &&& 7 = y ∧ (8 * t ||| y) >>> 3 = t) := by decide
  have ht := hdec (g / 8) (by omega) (x &&& 7) hy
  have hgt : 8 * (g / 8) = g := by omega
  rw [hgt] at ht
  refine ⟨ht.1, ?_⟩
  rw [ht.2, Nat.shiftRight_eq_div_pow]

theorem probe_eq (tt : TranspositionTable) (key : Nat) :
    tt.probe key =
      ⟨⟨tt.table.set (tt.cluster_index key) ((tt.clusterAt key).probe tt.generation8 (hi16 key)).1, tt.generation8⟩, tt.cluster_index key, ((tt.clusterAt key).probe tt.generation8 (hi16 key)).2.1, ((tt.clusterAt key).probe tt.generation8 (hi16 key)).2.2⟩ :=
  rfl

theorem cluster_probe_scan (c : TTCluster) (gen k16 : Nat) (j : Fin 3)
    (hj : qualifies k16 (c.get j))
    (hmin : ∀ i : Fin 3, i < j → ¬ qualifies k16 (c.get i)) :
    c.probe gen k16 = (c.set j (refreshGen gen (c.get j)), j, (c.get j).key16 != 0) := by
  fin_cases j
  · have h0 : c.e0.key16 = 0 ∨ c.e0.key16 = k16 := hj
    unfold TTCluster.probe
    rw [if_pos h0]
    rfl
  · have hn0 : ¬ (c.e0.key16 = 0 ∨ c.e0.key16 = k16) := hmin 0 (by decide)
    have h1 : c.e1.key16 = 0 ∨ c.e1.key16 = k16 := hj
    unfold TTCluster.probe
    rw [if_neg hn0, if_pos h1]
    rfl
  · have hn0 : ¬ (c.e0.key16 = 0 ∨ c.e0.key16 = k16) := hmin 0 (by decide)
    have hn1 : ¬ (c.e1.key16 = 0 ∨ c.e1.key16 = k16) := hmin 1 (by decide)
    have h2 : c.e2.key16 = 0 ∨ c.e2.key16 = k16 := hj
    unfold TTCluster.probe
    rw [if_neg hn0, if_neg hn1, if_pos h2]
    rfl

theorem cluster_probe_cases (c : TTCluster) (gen k16 : Nat) :
    (∀ i : Fin 3, i < (c.probe gen k16).2.1 → ¬ qualifies k16 (c.get i)) ∧
    ((c.probe gen k16).1.get (c.probe gen k16).2.1 = refreshGen gen (c.get (c.probe gen k16).2.1) ∨
      (c.probe gen k16).1.get (c.probe gen k16).2.1 = c.get (c.probe gen k16).2.1) ∧
    (∀ i : Fin 3, i ≠ (c.probe gen k16).2.1 → (c.probe gen k16).1.get i = c.get i) := by
  by_cases q0 : c.e0.key16 = 0 ∨ c.e0.key16 = k16
  · rw [cluster_probe_scan c gen k16 0 q0 (fun i hi => absurd hi (by omega))]
    dsimp only
    exact ⟨fun i hi => absurd hi (by omega), Or.inl (get_set_self c 0 _),
      fun i hi => get_set_ne c i 0 _ hi⟩
  · by_cases q1 : c.e1.key16 = 0 ∨ c.e1.key16 = k16
    · have hmin : ∀ i : Fin 3, i < 1 → ¬ qualifies k16 (c.get i) := by
        intro i hi
        have hz : i = 0 := by omega
        subst hz
        exact q0
      rw [cluster_probe_scan c gen k16 1 q1 hmin]
      dsimp only
      exact ⟨hmin, Or.inl (get_set_self c 1 _), fun i hi => get_set_ne c i 1 _ hi⟩
    · by_cases q2 : c.e2.key16 = 0 ∨ c.e2.key16 = k16
      · have hmin : ∀ i : Fin 3, i < 2 → ¬ qualifies k16 (c.get i) := by
          intro i hi
          have hz : i = 0 ∨ i = 1 := by omega
          rcases hz with h | h <;> subst h
          · exact q0
          · exact q1
        rw [cluster_probe_scan c gen k16 2 q2 hmin]
        dsimp only
        exact ⟨hmin, Or.inl (get_set_self c 2 _), fun i hi => get_set_ne c i 2 _ hi⟩
      · have hall : ∀ i : Fin 3, ¬ qualifies k16 (c.get i) := by
          intro i
          fin_cases i
          · exact q0
          · exact q1
          · exact q2
        unfold TTCluster.probe
        rw [if_neg q0, if_neg q1, if_neg q2]
        dsimp only
        split_ifs <;>
          exact ⟨fun i _ => hall i, Or.inr rfl, fun _ _ => rfl⟩

theorem cluster_probe_replace (c : TTCluster) (gen k16 : Nat)
    (h : ∀ i : Fin 3, ¬ qualifies k16 (c.get i)) :
    (c.probe gen k16).1 = c ∧ (c.probe gen k16).2.2 = false ∧
    (∀ i : Fin 3,
      replaceScore gen (c.get (c.probe gen k16).2.1) ≤ replaceScore gen (c.get i)) ∧
    (∀ i : Fin 3, i < (c.probe gen k16).2.1 →
      replaceScore gen (c.get (c.probe gen k16).2.1) < replaceScore gen (c.get i)) := by
  have q0 : ¬ (c.e0.key16 = 0 ∨ c.e0.key16 = k16) := h 0
  have q1 : ¬ (c.e1.key16 = 0 ∨ c.e1.key16 = k16) := h 1
  have q2 : ¬ (c.e2.key16 = 0 ∨ c.e2.key16 = k16) := h 2
  unfold TTCluster.probe
  rw [if_neg q0, if_neg q1, if_neg q2]
  dsimp only
  split_ifs with s1 s2 s2 <;>
    refine ⟨rfl, rfl, fun i => ?_, fun i hi => ?_⟩ <;>
    fin_cases i <;>
    simp_all [get_zero, get_one, get_two, TTCluster.get, Fin.lt_def] <;>
    omega

/-! ### C3: the scan phase of probe -/

/-- C3: probing a table with at least one cluster scans the three entries of
the cluster at index key AND (length - 1) in fixed index order; when some
entry has key16 = 0 or key16 equal to the probed key's high 16 bits, the
first such entry (index j) is selected, its generation bits (top 5) are set
to the table's current generation while its bound and pv bits (bottom 3) are
left unchanged — and no other field of the entry and no other entry of the
table changes — and found = true exactly when the selected entry's key16 was
non-zero before the refresh.  (The generation8 hypotheses express the u8
well-formedness and the multiple-of-8 invariant maintained by new_search.) -/
theorem probe_scan_select (tt : TranspositionTable) (key : Nat) (j : Fin 3)
    (hlen : 1 ≤ tt.table.length)
    (hgen : tt.generation8 < 256) (hgen8 : tt.generation8 % 8 = 0)
    (hj : qualifies (hi16 key) ((tt.clusterAt key).get j))
    (hmin : ∀ i : Fin 3, i < j → ¬ qualifies (hi16 key) ((tt.clusterAt key).get i)) :
    (tt.probe key).cIdx = tt.cluster_index key ∧
    (tt.probe key).eIdx = j ∧
    ((tt.probe key).found = true ↔ ((tt.clusterAt key).get j).key16 ≠ 0) ∧
    (tt.probe key).tt.table =
      tt.table.set (tt.cluster_index key)
        ((tt.clusterAt key).set j (refreshGen tt.generation8 ((tt.clusterAt key).get j))) ∧
    (tt.probe key).tt.generation8 = tt.generation8 ∧
    (refreshGen tt.generation8 ((tt.clusterAt key).get j)).genbound8 =
      (tt.generation8 ||| (((tt.clusterAt key).get j).genbound8 &&& 7)) ∧
    (refreshGen tt.generation8 ((tt.clusterAt key).get j)).genbound8 &&& 7 =
      ((tt.clusterAt key).get j).genbound8 &&& 7 ∧
    (refreshGen tt.generation8 ((tt.clusterAt key).get j)).genbound8 >>> 3 =
      tt.generation8 >>> 3 ∧
    (refreshGen tt.generation8 ((tt.clusterAt key).get j)).key16 =
      ((tt.clusterAt key).get j).key16 ∧
    (refreshGen tt.generation8 ((tt.clusterAt key).get j)).mv16 =
      ((tt.clusterAt key).get j).mv16 ∧
    (refreshGen tt.generation8 ((tt.clusterAt key).get j)).value16 =
      ((tt.clusterAt key).get j).value16 ∧
    (refreshGen tt.generation8 ((tt.clusterAt key).get j)).eval16 =
      ((tt.clusterAt key).get j).eval16 ∧
    (refreshGen tt.generation8 ((tt.clusterAt key).get j)).depth8 =
      ((tt.clusterAt key).get j).depth8 := by
  have hb := genbits_refresh tt.generation8 (((tt.clusterAt key).get j).genbound8) hgen hgen8
  rw [probe_eq, cluster_probe_scan (tt.clusterAt key) tt.generation8 (hi16 key) j hj hmin]
  refine ⟨rfl, rfl, ?_, rfl, rfl, rfl, hb.1, hb.2, rfl, rfl, rfl, rfl, rfl⟩
  simp [bne_iff_ne]

/-- Witness for C3: probing the all-zero one-cluster table selects entry 0
(empty) and reports found = false. -/
theorem probe_scan_select_witness :
    (tt1c.probe (keyHi 2)).eIdx = 0 :=
  (probe_scan_select tt1c (keyHi 2) 0 (by decide) (by decide) (by decide)
    (by decide) (fun i hi => absurd hi (by omega))).2.1

/-! ### C2: the replacement phase of probe -/

/-- C2: when no entry of the addressed cluster is empty or matches the
probed key's high 16 bits, probe returns found = false together with the
first entry, in scan order, minimizing depth8 minus the age penalty
(263 + currentGeneration - entryGenbound8) AND 0xf8; concretely, for a
cluster holding depth-2/old-generation, depth-1/new-generation and
depth-9/old-generation entries, probing a further new key selects the
depth-2 old-generation entry (Scenario B), and for a cluster of depths
2, 1, 9 all of the current generation, probing a fourth distinct key
selects the depth-1 entry (Scenario A). -/
theorem probe_replacement_policy :
    (∀ (tt : TranspositionTable) (key : Nat),
      1 ≤ tt.table.length →
      (∀ i : Fin 3, ¬ qualifies (hi16 key) ((tt.clusterAt key).get i)) →
      (tt.probe key).found = false ∧
      (∀ i : Fin 3,
        replaceScore tt.generation8 ((tt.clusterAt key).get (tt.probe key).eIdx) ≤
          replaceScore tt.generation8 ((tt.clusterAt key).get i)) ∧
      (∀ i : Fin 3, i < (tt.probe key).eIdx →
        replaceScore tt.generation8 ((tt.clusterAt key).get (tt.probe key).eIdx) <
          replaceScore tt.generation8 ((tt.clusterAt key).get i))) ∧
    ((ttA.probe (keyHi 0x1fff)).eIdx = 1 ∧ (ttA.probe (keyHi 0x1fff)).found = false) ∧
    ((ttB.probe (keyHi 0x1fff)).eIdx = 0 ∧ (ttB.probe (keyHi 0x1fff)).found = false) := by
  refine ⟨fun tt key _ h => ?_, ⟨by decide, by decide⟩, ⟨by decide, by decide⟩⟩
  have hc := cluster_probe_replace (tt.clusterAt key) tt.generation8 (hi16 key) h
  rw [probe_eq]
  exact ⟨hc.2.1, hc.2.2.1, hc.2.2.2⟩

/-- Witness for C2: on the Scenario A table the replacement search reports a
miss. -/
theorem probe_replacement_policy_witness :
    (ttA.probe (keyHi 0x1fff)).found = false :=
  (probe_replacement_policy.1 ttA (keyHi 0x1fff) (by decide) (by decide)).1

/-! ### Power-of-two and list helpers -/

theorem next_power_of_two_go_pow2 (n : Nat) :
    ∀ f p, (∃ k, p = 2 ^ k) → ∃ k, next_power_of_two_go n f p = 2 ^ k := by
  intro f
  induction f with
  | zero => intro p hp; exact hp
  | succ f ih =>
      intro p hp
      unfold next_power_of_two_go
      split
      · exact hp
      · obtain ⟨k, rfl⟩ := hp
        exact ih (2 * 2 ^ k) ⟨k + 1, by ring⟩

theorem next_power_of_two_go_ge (n : Nat) :
    ∀ f p, 1 ≤ p → n ≤ p * 2 ^ f → n ≤ next_power_of_two_go n f p := by
  intro f
  induction f with
  | zero => intro p _ h; simpa using h
  | succ f ih =>
      intro p hp h
      unfold next_power_of_two_go
      split
      · assumption
      · refine ih (2 * p) (by omega) ?_
        have hx : 2 * p * 2 ^ f = p * 2 ^ (f + 1) := by ring
        rw [hx]
        exact h

theorem next_power_of_two_pow2 (n : Nat) : ∃ k, next_power_of_two n = 2 ^ k :=
  next_power_of_two_go_pow2 n n 1 ⟨0, rfl⟩

theorem next_power_of_two_ge (n : Nat) : n ≤ next_power_of_two n :=
  next_power_of_two_go_ge n n 1 (Nat.le_refl 1) (by simpa using (Nat.lt_two_pow n).le)

theorem getD_set_self (l : List TTCluster) (i : Nat) (a : TTCluster)
    (h : i < l.length) : (l.set i a).getD i zeroCluster = a := by
  simp [List.getD_eq_getElem?_getD, List.getElem?_set_self, h]

/-! ### C7: resize normalization and the power-of-two length invariant -/

/-- C7 counterexample: a freshly constructed table, and a table resized to a
requested size of 0 megabytes, have zero clusters, and zero is not a power
of two — so the cluster count is not ALWAYS a power of two. -/
theorem table_len_pow2_cex :
    TranspositionTable.new.table.length = 0 ∧
    (TranspositionTable.new.resize 0).table.length = 0 ∧
    ¬ (∃ k, TranspositionTable.new.table.length = 2 ^ k) := by
  refine ⟨rfl, ?_, ?_⟩
  · show (List.replicate (next_power_of_two (0 + 1) >>> 1 * 1024 * 1024 / 32)
      zeroCluster).length = 0
    rw [List.length_replicate]
    decide
  · rintro ⟨k, hk⟩
    exact absurd hk.symm (Nat.pos_iff_ne_zero.mp (Nat.two_pow_pos k))

/-- C7 (amended): after resize with a requested megabyte size of at least 1,
the cluster count equals the normalized byte size (requested size rounded up
to the next power of two, then halved, times 2^20) divided by the 32-byte
cluster size, it is a power of two, and the addressed index
key AND (length - 1) is always in range.  A freshly constructed table or a
table resized to 0 megabytes instead has zero clusters. -/
theorem resize_pow2 (tt : TranspositionTable) (m : Nat) (hm : 1 ≤ m) :
    (tt.resize m).table.length = next_power_of_two (m + 1) >>> 1 * 1024 * 1024 / 32 ∧
    (∃ k, (tt.resize m).table.length = 2 ^ k) ∧
    ∀ key, (tt.resize m).cluster_index key < (tt.resize m).table.length := by
  have hlen : (tt.resize m).table.length =
      next_power_of_two (m + 1) >>> 1 * 1024 * 1024 / 32 := by
    show (List.replicate (next_power_of_two (m + 1) >>> 1 * 1024 * 1024 / 32)
      zeroCluster).length = _
    rw [List.length_replicate]
  obtain ⟨k, hk⟩ := next_power_of_two_pow2 (m + 1)
  have hge : m + 1 ≤ next_power_of_two (m + 1) := next_power_of_two_ge (m + 1)
  have hk1 : 1 ≤ k := by
    by_contra hk0
    have hz : k = 0 := by omega
    subst hz
    rw [hk] at hge
    omega
  obtain ⟨j, rfl⟩ : ∃ j, k = j + 1 := ⟨k - 1, by omega⟩
  have hpow : next_power_of_two (m + 1) >>> 1 * 1024 * 1024 / 32 = 2 ^ (j + 15) := by
    rw [hk]
    have e1 : (2 : Nat) ^ (j + 1) >>> 1 = 2 ^ j := by
      rw [Nat.shiftRight_eq_div_pow, Nat.pow_succ]
      omega
    rw [e1]
    have e2 : (2 : Nat) ^ j * 1024 * 1024 / 32 = 2 ^ j * 32768 := by omega
    rw [e2, show (32768 : Nat) = 2 ^ 15 by norm_num, ← Nat.pow_add]
  refine ⟨hlen, ⟨j + 15, by rw [hlen, hpow]⟩, fun key => ?_⟩
  apply cluster_index_lt
  rw [hlen, hpow]
  exact Nat.two_pow_pos (j + 15)

/-- Witness for C7 (amended): resizing a fresh table to 1 megabyte yields a
power-of-two cluster count. -/
theorem resize_pow2_witness :
    ∃ k, (TranspositionTable.new.resize 1).table.length = 2 ^ k :=
  (resize_pow2 TranspositionTable.new 1 (by decide)).2.1

/-! ### C8: clear zeroes every entry and keeps the generation -/

/-- C8: after clear() every cluster of the table is the all-zero cluster
(every entry's key16, mv16, value16, eval16, genbound8 and depth8 are 0),
the cluster count is unchanged, and the table's generation counter is
unchanged. -/
theorem clear_zeroes (tt : TranspositionTable) :
    (tt.clear).table.length = tt.table.length ∧
    (tt.clear).generation8 = tt.generation8 ∧
    ∀ i, i < tt.table.length → ∀ j : Fin 3,
      ((tt.clear).table.getD i zeroCluster).get j = TTEntry.mk 0 0 0 0 0 0 := by
  refine ⟨by simp [TranspositionTable.clear], rfl, fun i hi j => ?_⟩
  have hz : (tt.clear).table.getD i zeroCluster = zeroCluster := by
    show (tt.table.map (fun _ => zeroCluster)).getD i zeroCluster = zeroCluster
    rw [List.getD_eq_getElem?_getD, List.getElem?_map, List.getElem?_eq_getElem hi]
    rfl
  rw [hz]
  fin_cases j <;> rfl

/-- Witness for C8: clearing the Scenario A table zeroes its first entry. -/
theorem clear_zeroes_witness :
    ((ttA.clear).table.getD 0 zeroCluster).get 0 = TTEntry.mk 0 0 0 0 0 0 :=
  (clear_zeroes ttA).2.2 0 (by decide) 0

/-! ### C10: the index precondition of probe -/

/-- C10: cluster_index computes the mask table.len() - 1 with usize
semantics, so on a freshly constructed table (length 0) the subtraction
wraps to 2^64 - 1 and the computed index (here for key 5) is out of range
for the unchecked cluster access — probe on an empty table is not safe;
under the precondition that the length is at least 1 and a power of two the
computed index is always in range, making the unchecked access safe. -/
theorem probe_index_precondition :
    (∀ (tt : TranspositionTable) (key k : Nat),
      1 ≤ tt.table.length → tt.table.length = 2 ^ k →
      tt.cluster_index key < tt.table.length) ∧
    usizeMask TranspositionTable.new.table.length = 2 ^ 64 - 1 ∧
    ¬ (TranspositionTable.new.cluster_index 5 < TranspositionTable.new.table.length) := by
  exact ⟨fun tt key _ hlen _ => cluster_index_lt tt key hlen, by decide, by decide⟩

/-- Witness for C10: on a one-cluster table (length 2^0) the computed index
is in range. -/
theorem probe_index_precondition_witness :
    tt1c.cluster_index 5 < tt1c.table.length :=
  probe_index_precondition.1 tt1c 5 0 (by decide) (by decide)

/-! ### Entry decode helpers for the round trip -/

theorem genbound_decode : ∀ t, t < 32 → ∀ b, b < 4 → ∀ p, p < 2 →
    ((((8 * t) ||| (p <<< 2) ||| b) % 256) &&& 3 = b ∧
     (((8 * t) ||| (p <<< 2) ||| b) % 256) &&& 4 = 4 * p ∧
     ((8 * t) ||| ((((8 * t) ||| (p <<< 2) ||| b) % 256) &&& 7)) &&& 3 = b ∧
     ((8 * t) ||| ((((8 * t) ||| (p <<< 2) ||| b) % 256) &&& 7)) &&& 4 = 4 * p) := by
  decide

theorem save_eq_encEntry (e : TTEntry) (key : Nat) (value : Int) (pv : Bool)
    (bound : Nat) (depth : Int) (mv : Option Nat) (eval : Int) (gen : Nat)
    (hgate : saveGate e key bound depth) :
    e.save key value pv bound depth mv eval gen =
      encEntry key value eval pv bound depth gen
        (e.save key value pv bound depth mv eval gen).mv16 := by
  cases mv with
  | some m =>
      have hg1 : saveGate { e with mv16 := m % 65536 } key bound depth := hgate
      simp only [TTEntry.save]
      rw [if_pos hg1]
      rfl
  | none =>
      by_cases hk2 : hi16 key ≠ e.key16
      · have hg1 : saveGate { e with mv16 := 0 } key bound depth := hgate
        simp only [TTEntry.save]
        rw [if_pos hk2, if_pos hg1]
        rfl
      · simp only [TTEntry.save]
        rw [if_neg hk2, if_pos hgate]
        rfl

theorem encEntry_decode (key : Nat) (value eval : Int) (pv : Bool) (bound : Nat)
    (depth : Int) (gen mv16 : Nat)
    (hgen : gen < 256) (hgen8 : gen % 8 = 0)
    (hv : -32768 ≤ value ∧ value < 32768)
    (he : -32768 ≤ eval ∧ eval < 32768)
    (hb : bound < 4)
    (hd : 0 ≤ depthQuant depth ∧ depthQuant depth ≤ 255) :
    (encEntry key value eval pv bound depth gen mv16).key16 = hi16 key ∧
    (refreshGen gen (encEntry key value eval pv bound depth gen mv16)).key16 = hi16 key ∧
    (refreshGen gen (encEntry key value eval pv bound depth gen mv16)).value = value ∧
    (refreshGen gen (encEntry key value eval pv bound depth gen mv16)).eval = eval ∧
    (refreshGen gen (encEntry key value eval pv bound depth gen mv16)).depth = depth ∧
    (refreshGen gen (encEntry key value eval pv bound depth gen mv16)).bound = bound ∧
    (refreshGen gen (encEntry key value eval pv bound depth gen mv16)).is_pv = pv := by
  have hgt : 8 * (gen / 8) = gen := by omega
  have ht : gen / 8 < 32 := by omega
  refine ⟨rfl, rfl, ?_, ?_, ?_, ?_, ?_⟩
  · show toI16 value = value
    unfold toI16
    omega
  · show toI16 eval = eval
    unfold toI16
    omega
  · show ((toU8 (depthQuant depth) : Nat) : Int) * Depth.ONE_PLY + Depth.OFFSET = depth
    unfold toU8
    simp only [depthQuant, Depth.ONE_PLY, Depth.OFFSET, Int.tdiv_one] at hd ⊢
    omega
  · cases pv
    · show (gen ||| (((gen ||| ((0 : Nat) <<< 2) ||| bound) % 256) &&& 7)) &&& 3 = bound
      rw [← hgt]
      exact (genbound_decode (gen / 8) ht bound hb 0 (by omega)).2.2.1
    · show (gen ||| (((gen ||| ((1 : Nat) <<< 2) ||| bound) % 256) &&& 7)) &&& 3 = bound
      rw [← hgt]
      exact (genbound_decode (gen / 8) ht bound hb 1 (by omega)).2.2.1
  · cases pv
    · show ((gen ||| (((gen ||| ((0 : Nat) <<< 2) ||| bound) % 256) &&& 7)) &&& 4 != 0)
        = false
      rw [← hgt, (genbound_decode (gen / 8) ht bound hb 0 (by omega)).2.2.2]
      decide
    · show ((gen ||| (((gen ||| ((1 : Nat) <<< 2) ||| bound) % 256) &&& 7)) &&& 4 != 0)
        = true
      rw [← hgt, (genbound_decode (gen / 8) ht bound hb 1 (by omega)).2.2.2]
      decide

theorem cluster_roundtrip (c : TTCluster) (gen key : Nat) (value eval : Int)
    (pv : Bool) (bound : Nat) (depth : Int) (mv : Option Nat)
    (hk : hi16 key ≠ 0) (hgen : gen < 256) (hgen8 : gen % 8 = 0)
    (hv : -32768 ≤ value ∧ value < 32768)
    (he : -32768 ≤ eval ∧ eval < 32768)
    (hb : bound < 4)
    (hd : 0 ≤ depthQuant depth ∧ depthQuant depth ≤ 255)
    (hgate : saveGate (c.get (c.probe gen (hi16 key)).2.1) key bound depth)
    (c2 : TTCluster)
    (hc2 : c2 = (c.probe gen (hi16 key)).1.set (c.probe gen (hi16 key)).2.1
      (((c.probe gen (hi16 key)).1.get (c.probe gen (hi16 key)).2.1).save
        key value pv bound depth mv eval gen)) :
    (c2.probe gen (hi16 key)).2.2 = true ∧
    (c2.probe gen (hi16 key)).2.1 = (c.probe gen (hi16 key)).2.1 ∧
    ((c2.probe gen (hi16 key)).1.get (c2.probe gen (hi16 key)).2.1).value = value ∧
    ((c2.probe gen (hi16 key)).1.get (c2.probe gen (hi16 key)).2.1).eval = eval ∧
    ((c2.probe gen (hi16 key)).1.get (c2.probe gen (hi16 key)).2.1).depth = depth ∧
    ((c2.probe gen (hi16 key)).1.get (c2.probe gen (hi16 key)).2.1).bound = bound ∧
    ((c2.probe gen (hi16 key)).1.get (c2.probe gen (hi16 key)).2.1).is_pv = pv := by
  obtain ⟨hlt, hsel, hother⟩ := cluster_probe_cases c gen (hi16 key)
  have hgate1 : saveGate ((c.probe gen (hi16 key)).1.get (c.probe gen (hi16 key)).2.1)
      key bound depth := by
    rcases hsel with h | h <;> rw [h] <;> exact hgate
  have hse := save_eq_encEntry ((c.probe gen (hi16 key)).1.get (c.probe gen (hi16 key)).2.1)
    key value pv bound depth mv eval gen hgate1
  have hdec := encEntry_decode key value eval pv bound depth gen
    (((c.probe gen (hi16 key)).1.get (c.probe gen (hi16 key)).2.1).save
      key value pv bound depth mv eval gen).mv16 hgen hgen8 hv he hb hd
  rw [← hse] at hdec
  have heskey : (((c.probe gen (hi16 key)).1.get (c.probe gen (hi16 key)).2.1).save
      key value pv bound depth mv eval gen).key16 = hi16 key := hdec.1
  have hq2 : qualifies (hi16 key) (c2.get (c.probe gen (hi16 key)).2.1) := by
    rw [hc2, get_set_self]
    exact Or.inr heskey
  have hmin2 : ∀ i : Fin 3, i < (c.probe gen (hi16 key)).2.1 →
      ¬ qualifies (hi16 key) (c2.get i) := by
    intro i hi
    rw [hc2, get_set_ne _ _ _ _ (Fin.ne_of_lt hi), hother i (Fin.ne_of_lt hi)]
    exact hlt i hi
  have hscan := cluster_probe_scan c2 gen (hi16 key) (c.probe gen (hi16 key)).2.1 hq2 hmin2
  rw [hscan]
  dsimp only
  have hentry : c2.get (c.probe gen (hi16 key)).2.1 =
      ((c.probe gen (hi16 key)).1.get (c.probe gen (hi16 key)).2.1).save
        key value pv bound depth mv eval gen := by
    rw [hc2, get_set_self]
  rw [get_set_self, hentry, heskey]
  refine ⟨by simp [bne_iff_ne, hk], rfl, hdec.2.2.1, hdec.2.2.2.1, hdec.2.2.2.2.1,
    hdec.2.2.2.2.2.1, hdec.2.2.2.2.2.2⟩

/-! ### C6: the save-then-probe round trip -/

/-- C6 counterexample: for the key 0 (whose high 16 bits are 0), with value,
eval and depth all in the representable ranges demanded by the claim, saving
on the slot returned by probe and immediately probing the same key returns
found = false, not true: the saved entry stores key16 = 0, which reads back
as the empty sentinel. -/
theorem save_probe_round_trip_cex :
    (-32768 ≤ (1 : Int) ∧ (1 : Int) < 32768) ∧
    (0 ≤ depthQuant 0 ∧ depthQuant 0 ≤ 255) ∧
    (((tt1c.probe 0).tt.saveAt (tt1c.probe 0).cIdx (tt1c.probe 0).eIdx
      0 1 true 3 0 none 1 tt1c.generation8).probe 0).found = false := by
  decide

/-- C6 (amended): for every table with at least one cluster (with a
well-formed generation byte, a multiple of 8), every key whose HIGH 16 BITS
ARE NON-ZERO, every pv flag, every bound below 4, every value and eval
representable in 16 signed bits, and every depth that is an exact multiple
of the ply unit and whose offset-adjusted quotient fits in one unsigned
byte, PROVIDED the overwrite gate holds at the slot probe returned (the slot
was empty, or held a different key, or the incoming bound is EXACT, or the
incoming depth is not more than 4 ply units shallower than the resident) —
which is automatic except on a same-key hit by a much shallower non-exact
result — calling save on the slot returned by probe(key) and then
immediately probing the same key returns found = true with value(), eval(),
depth(), bound() and is_pv() equal to the saved value, eval, depth, bound
and pv flag; in particular decoding the encoded depth reproduces the
original depth. -/
theorem save_probe_round_trip (tt : TranspositionTable) (key : Nat)
    (value eval : Int) (pv : Bool) (bound : Nat) (depth : Int) (mv : Option Nat)
    (hlen : 1 ≤ tt.table.length)
    (hk : hi16 key ≠ 0)
    (hgen : tt.generation8 < 256) (hgen8 : tt.generation8 % 8 = 0)
    (hv : -32768 ≤ value ∧ value < 32768)
    (he : -32768 ≤ eval ∧ eval < 32768)
    (hb : bound < 4)
    (hmul : Int.tdiv depth Depth.ONE_PLY * Depth.ONE_PLY = depth)
    (hd : 0 ≤ depthQuant depth ∧ depthQuant depth ≤ 255)
    (hgate : saveGate ((tt.clusterAt key).get (tt.probe key).eIdx) key bound depth)
    (tt2 : TranspositionTable)
    (htt2 : tt2 = (tt.probe key).tt.saveAt (tt.probe key).cIdx (tt.probe key).eIdx
      key value pv bound depth mv eval tt.generation8) :
    (tt2.probe key).found = true ∧
    (((tt2.probe key).tt.table.getD (tt2.probe key).cIdx zeroCluster).get
      (tt2.probe key).eIdx).value = value ∧
    (((tt2.probe key).tt.table.getD (tt2.probe key).cIdx zeroCluster).get
      (tt2.probe key).eIdx).eval = eval ∧
    (((tt2.probe key).tt.table.getD (tt2.probe key).cIdx zeroCluster).get
      (tt2.probe key).eIdx).depth = depth ∧
    (((tt2.probe key).tt.table.getD (tt2.probe key).cIdx zeroCluster).get
      (tt2.probe key).eIdx).bound = bound ∧
    (((tt2.probe key).tt.table.getD (tt2.probe key).cIdx zeroCluster).get
      (tt2.probe key).eIdx).is_pv = pv := by
  have hidx : tt.cluster_index key < tt.table.length := cluster_index_lt tt key hlen
  have hgate1 : saveGate ((tt.clusterAt key).get
      ((tt.clusterAt key).probe tt.generation8 (hi16 key)).2.1) key bound depth := hgate
  have hrt := cluster_roundtrip (tt.clusterAt key) tt.generation8 key value eval pv bound
    depth mv hk hgen hgen8 hv he hb hd hgate1 _ rfl
  have htt2e : tt2 = ⟨tt.table.set (tt.cluster_index key)
      (((tt.clusterAt key).probe tt.generation8 (hi16 key)).1.set
        ((tt.clusterAt key).probe tt.generation8 (hi16 key)).2.1
        ((((tt.clusterAt key).probe tt.generation8 (hi16 key)).1.get
          ((tt.clusterAt key).probe tt.generation8 (hi16 key)).2.1).save
            key value pv bound depth mv eval tt.generation8)),
      tt.generation8⟩ := by
    rw [htt2]
    simp only [TranspositionTable.saveAt]
    rw [probe_eq]
    dsimp only
    rw [getD_set_self _ _ _ hidx, List.set_set]
  have hg2 : tt2.generation8 = tt.generation8 := by rw [htt2e]
  have hlen2 : tt2.table.length = tt.table.length := by
    rw [htt2e]
    exact List.length_set tt.table _ _
  have hci2 : tt2.cluster_index key = tt.cluster_index key := by
    unfold TranspositionTable.cluster_index usizeMask
    rw [hlen2]
  have hca2 : tt2.clusterAt key =
      ((tt.clusterAt key).probe tt.generation8 (hi16 key)).1.set
        ((tt.clusterAt key).probe tt.generation8 (hi16 key)).2.1
        ((((tt.clusterAt key).probe tt.generation8 (hi16 key)).1.get
          ((tt.clusterAt key).probe tt.generation8 (hi16 key)).2.1).save
            key value pv bound depth mv eval tt.generation8) := by
    unfold TranspositionTable.clusterAt
    rw [hci2, htt2e]
    exact getD_set_self _ _ _ hidx
  have hfin : ((tt2.probe key).tt.table.getD (tt2.probe key).cIdx zeroCluster).get
      (tt2.probe key).eIdx =
      (((tt2.clusterAt key).probe tt2.generation8 (hi16 key)).1.get
        ((tt2.clusterAt key).probe tt2.generation8 (hi16 key)).2.1) := by
    rw [probe_eq]
    dsimp only
    rw [getD_set_self _ _ _ (by rw [hci2, hlen2]; exact hidx)]
  have hfound : (tt2.probe key).found =
      ((tt2.clusterAt key).probe tt2.generation8 (hi16 key)).2.2 := rfl
  rw [hfound, hfin, hca2, hg2]
  exact ⟨hrt.1, hrt.2.2.1, hrt.2.2.2.1, hrt.2.2.2.2.1, hrt.2.2.2.2.2.1, hrt.2.2.2.2.2.2⟩

/-- Witness for C6 (amended): saving value 7, eval 9, depth 3, EXACT bound,
pv flag set, under a key with high bits 1 into the fresh one-cluster table
and probing the same key again reports a hit. -/
theorem save_probe_round_trip_witness :
    (((tt1c.probe (keyHi 1)).tt.saveAt (tt1c.probe (keyHi 1)).cIdx
      (tt1c.probe (keyHi 1)).eIdx (keyHi 1) 7 true 3 3 none 9
      tt1c.generation8).probe (keyHi 1)).found = true :=
  (save_probe_round_trip tt1c (keyHi 1) 7 9 true 3 3 none (by decide) (by decide)
    (by decide) (by decide) (by decide) (by decide) (by decide) (by decide)
    (by decide) (by decide) _ rfl).1
